import Mathlib

/-!
Verification of the EPUB token-counting batch pipeline (`epubtokens.py`).

The program scans a source directory for `.epub` archives, extracts the
embedded XHTML text of each archive, estimates a token count for that text,
writes one CSV report row per successfully classified file, and moves files
whose count is strictly below a user threshold into a destination directory.

The embedding is a shallow one.  External collaborators are gathered in an
`Env` record of abstract functions: the filesystem (`pathExists`, `getsize`,
`scandir`, `moveOk`, `openOk`), the archive library (`read_epub`), the
UTF-8 codec with the `ignore` error handler (`decodeUtf8Ignore`), and the
`cl100k_base` tokenizer (`encode`, with `encodeOk` marking calls that raise).
Pure control flow and data flow of the program are translated directly.
Side effects (archive opens, CSV row writes, move attempts) are recorded in
an explicit event trace so that ordering claims are statable.
-/

namespace EpubTokens

/-- One CSV data row: title, token count, original file path.  Mirrors the
tuple written by `csv_writer.writerow([title, token_count, file_path])`. -/
structure ClassificationRecord where
  title : String
  token_count : Nat
  file_path : String
deriving DecidableEq

/-- Observable side effects of one run, in program order: an archive being
opened by `epub.read_epub`, a CSV row write, and the outcome of a
`shutil.move` attempt. -/
inductive Event where
  | archiveOpened (path : String)
  | rowWritten (r : ClassificationRecord)
  | moveSucceeded (src : String) (dest : String)
  | moveFailed (src : String)
deriving DecidableEq

/-- A directory entry as produced by `os.scandir`: its base name and whether
it is a regular file. -/
structure DirEntry where
  name : String
  is_file : Bool
deriving DecidableEq

/-- An embedded item of a parsed archive: declared media type and raw bytes
(the value of `item.get_content()`). -/
structure EpubItem where
  media_type : String
  content : List Nat
deriving DecidableEq

/-- A parsed archive as seen by the program: the values of
`book.get_metadata("DC", "title")` and the item list of `book.get_items()`
in container iteration order. -/
structure EpubBook where
  dc_title : List String
  items : List EpubItem
deriving DecidableEq

/-- The external world of one run.  `read_epub path = none` models
`epub.read_epub` raising; `encodeOk text = false` models the tokenizer
raising on that text; `moveOk path = false` models `shutil.move` raising;
`openOk = false` models `open(csv_file, "w")` raising;
`decodeUtf8Ignore` models `bytes.decode("utf-8", errors="ignore")`, the
best-effort decoder that drops undecodable byte sequences instead of
raising. -/
structure Env where
  pathExists : String → Bool
  getsize : String → Nat
  scandir : String → Option (List DirEntry)
  read_epub : String → Option EpubBook
  decodeUtf8Ignore : List Nat → String
  encodeOk : String → Bool
  encode : String → List Nat
  moveOk : String → Bool
  openOk : Bool
  timestamp : String

/-- `MAX_FILE_SIZE = 100 * 1024 * 1024` from the class body. -/
def MAX_FILE_SIZE : Nat := 100 * 1024 * 1024

/-- Python whitespace characters stripped by `int()` before parsing. -/
def isSpaceChar (c : Char) : Bool :=
  c = ' ' || c = '\t' || c = '\n' || c = '\r' || c = '\x0b' || c = '\x0c'

/-- Strip leading and trailing whitespace, as `int()` does. -/
def pyStrip (cs : List Char) : List Char :=
  ((cs.dropWhile isSpaceChar).reverse.dropWhile isSpaceChar).reverse

/-- Numeric value of a digit string, ignoring the underscores that Python
`int()` permits between digits. -/
def digitsVal (cs : List Char) : Nat :=
  (cs.filter (fun c => c ≠ '_')).foldl (fun n c => n * 10 + (c.toNat - 48)) 0

/-- Tail of a valid `int()` digit string: digits with single underscores
allowed only between digits. -/
def digitsTailOk : List Char → Bool
  | [] => true
  | c :: rest =>
    if c = '_' then
      match rest with
      | [] => false
      | d :: rest2 => d.isDigit && digitsTailOk rest2
    else c.isDigit && digitsTailOk rest

/-- A valid `int()` digit string: nonempty, starts with a digit. -/
def digitsOk : List Char → Bool
  | [] => false
  | c :: rest => c.isDigit && digitsTailOk rest

/-- Model of Python `int(s)` on decimal strings: optional surrounding
whitespace, one optional sign, then a digit string.  `none` models
`ValueError`. -/
def pythonInt (s : String) : Option Int :=
  match pyStrip s.toList with
  | '+' :: rest => if digitsOk rest then some (Int.ofNat (digitsVal rest)) else none
  | '-' :: rest => if digitsOk rest then some (-(Int.ofNat (digitsVal rest))) else none
  | cs => if digitsOk cs then some (Int.ofNat (digitsVal cs)) else none

/-- Model of `s.replace(",", "")`: every comma removed. -/
def stripCommas (s : String) : String :=
  String.mk (s.toList.filter (fun c => c ≠ ','))

/-- ASCII lowering of one character, modelling `str.lower` on the ASCII
range (file extensions are ASCII). -/
def asciiLower (c : Char) : Char :=
  if 'A' ≤ c ∧ c ≤ 'Z' then Char.ofNat (c.toNat + 32) else c

/-- Model of `name.lower().endswith(sfx)`. -/
def lowerEndsWith (name sfx : String) : Bool :=
  List.isSuffixOf sfx.toList (name.toList.map asciiLower)

/-- Model of `Path(file_path).name`: the component after the last slash. -/
def pathBasename (p : String) : String :=
  String.mk ((p.toList.reverse.takeWhile (fun c => c ≠ '/')).reverse)

/-- The threshold the run uses: `int(self.token_input.text().replace(",", ""))`.
The default branch is unreachable on a validated run. -/
def thresholdOf (token_text : String) : Int :=
  (pythonInt (stripCommas token_text)).getD 0

/-- `calculate_tokens` (lines 97-105): length of the `cl100k_base` token
list, `None` when the tokenizer raises. -/
def calculate_tokens (env : Env) (text : String) : Option Nat :=
  if env.encodeOk text then some (env.encode text).length else none

/-- `_get_epub_title` (lines 129-132): first DC title entry if present,
else the base name of the file. -/
def get_epub_title (book : EpubBook) (file_path : String) : String :=
  match book.dc_title with
  | t :: _ => t
  | [] => pathBasename file_path

/-- Loop body of `_process_epub_content` (lines 137-144): append the decoded
content of an item exactly when its media type is `application/xhtml+xml`
and the decoded fragment is nonempty. -/
def appendItemText (env : Env) (acc : String) (item : EpubItem) : String :=
  if item.media_type = "application/xhtml+xml" then
    let content := env.decodeUtf8Ignore item.content
    if content ≠ "" then acc ++ content else acc
  else acc

/-- The `full_text` accumulated by `_process_epub_content`. -/
def extract_full_text (env : Env) (book : EpubBook) : String :=
  book.items.foldl (appendItemText env) ""

/-- `_process_epub_content` (lines 134-146): count tokens of the
concatenated text, or `None` when no text was extracted. -/
def process_epub_content (env : Env) (book : EpubBook) : Option Nat :=
  let full_text := extract_full_text env book
  if full_text ≠ "" then calculate_tokens env full_text else none

/-- `process_epub` (lines 107-127), with an event trace recording whether
`epub.read_epub` was invoked.  Returns `(trace, title, token_count)`;
`(none, none)` for the title and count models `return None, None`. -/
def process_epub (env : Env) (file_path : String) :
    List Event × Option String × Option Nat :=
  if ¬ env.pathExists file_path then ([], none, none)
  else if env.getsize file_path > MAX_FILE_SIZE then ([], none, none)
  else
    match env.read_epub file_path with
    | none => ([Event.archiveOpened file_path], none, none)
    | some book =>
        ([Event.archiveOpened file_path],
         some (get_epub_title book file_path),
         process_epub_content env book)

/-- `get_epub_files` (lines 148-157): collect `entry.path` for regular
files whose lowered name ends in `.epub`; a scan failure yields `[]`. -/
def get_epub_files (env : Env) (folder : String) : List String :=
  match env.scandir folder with
  | none => []
  | some entries =>
      entries.foldl
        (fun acc e =>
          if e.is_file && lowerEndsWith e.name ".epub" then
            acc ++ [folder ++ "/" ++ e.name]
          else acc) []

/-- `validate_inputs` (lines 159-173). -/
def validate_inputs (env : Env) (token_text folder_text dest_text : String) :
    Bool × String :=
  match pythonInt (stripCommas token_text) with
  | none => (false, "Invalid token count")
  | some max_tokens =>
      if max_tokens ≤ 0 then (false, "Token count must be positive")
      else if ¬ env.pathExists folder_text then (false, "Source folder does not exist")
      else if ¬ env.pathExists dest_text then (false, "Destination folder does not exist")
      else (true, "")

/-- Mutable state of the processing loop (lines 232-255): CSV rows written
so far, successful moves `(src, dest)`, the event trace, the instance field
`self.processed_files`, and the local `processed_count`. -/
@[ext] structure LoopState where
  rows : List ClassificationRecord
  moved : List (String × String)
  events : List Event
  processed_files : List String
  processed_count : Nat
deriving DecidableEq

/-- One iteration of the `for file_path in epub_files` loop
(lines 237-255). -/
def processFile (env : Env) (dest_folder : String) (max_tokens : Int)
    (st : LoopState) (file_path : String) : LoopState :=
  if file_path ∈ st.processed_files then st
  else
    match process_epub env file_path with
    | (trace, title, token_count) =>
        let stA := { st with events := st.events ++ trace }
        let stB :=
          match title, token_count with
          | some t, some c =>
              if t ≠ "" ∧ c ≠ 0 then
                let r : ClassificationRecord := ⟨t, c, file_path⟩
                let stC := { stA with
                  rows := stA.rows ++ [r],
                  events := stA.events ++ [Event.rowWritten r] }
                if (c : Int) < max_tokens then
                  let dest_path := dest_folder ++ "/" ++ pathBasename file_path
                  if env.moveOk file_path then
                    { stC with
                      moved := stC.moved ++ [(file_path, dest_path)],
                      events := stC.events ++ [Event.moveSucceeded file_path dest_path] }
                  else
                    { stC with events := stC.events ++ [Event.moveFailed file_path] }
                else stC
              else stA
          | _, _ => stA
        { stB with
          processed_files := stB.processed_files ++ [file_path],
          processed_count := stB.processed_count + 1 }

/-- Terminal outcome of one run: the dialog shown (critical error, warning,
or completion summary), or an uncaught exception from opening the report. -/
inductive Outcome where
  | error (msg : String)
  | warning (msg : String)
  | exception
  | done (processed_count : Nat) (csv_file : String)
deriving DecidableEq

/-- The CSV artifact: header row plus data rows. -/
structure CsvFile where
  header : List String
  rows : List ClassificationRecord
deriving DecidableEq

/-- Net effect of one invocation of `start_processing`: the dialog outcome,
the report artifact if one was created, the successful moves, the event
trace, the final `self.processed_files`, and the processed counter. -/
structure RunResult where
  outcome : Outcome
  artifact : Option CsvFile
  moved : List (String × String)
  events : List Event
  processed_files : List String
  processed_count : Nat
deriving DecidableEq

/-- Data rows of the report artifact, `[]` when none was created. -/
def RunResult.reportRows (res : RunResult) : List ClassificationRecord :=
  match res.artifact with
  | some csv => csv.rows
  | none => []

/-- The header row written at line 235. -/
def headerRow : List String := ["Title", "Token Count", "File Path"]

/-- Loop state at line 237: empty run-local accumulators, the carried-over
instance field `self.processed_files`. -/
def initState (p0 : List String) : LoopState :=
  { rows := [], moved := [], events := [], processed_files := p0, processed_count := 0 }

/-- `start_processing` (lines 203-261).  `p0` is the value of
`self.processed_files` when the Start button is pressed; the function
returns the run's net effect, including the updated field. -/
def start_processing (env : Env) (folder_text dest_text token_text : String)
    (p0 : List String) : RunResult :=
  let v := validate_inputs env token_text folder_text dest_text
  if ¬ v.1 then
    { outcome := Outcome.error v.2, artifact := none, moved := [], events := [],
      processed_files := p0, processed_count := 0 }
  else
    let max_tokens := thresholdOf token_text
    let epub_files := get_epub_files env folder_text
    if epub_files.isEmpty then
      { outcome := Outcome.warning "No EPUB files found!", artifact := none,
        moved := [], events := [], processed_files := p0, processed_count := 0 }
    else
      let csv_file := dest_text ++ "/" ++ "epub_token_counts_" ++ env.timestamp ++ ".csv"
      if ¬ env.openOk then
        { outcome := Outcome.exception, artifact := none, moved := [], events := [],
          processed_files := p0, processed_count := 0 }
      else
        let final := epub_files.foldl (processFile env dest_text max_tokens) (initState p0)
        { outcome := Outcome.done final.processed_count csv_file,
          artifact := some ⟨headerRow, final.rows⟩,
          moved := final.moved,
          events := final.events,
          processed_files := final.processed_files,
          processed_count := final.processed_count }

/-! ## Derived per-file views used in theorem statements -/

/-- The title `process_epub` would report for `f`, defaulting to `""`. -/
def titleOf (env : Env) (f : String) : String :=
  ((process_epub env f).2.1).getD ""

/-- The token count `process_epub` would report for `f`, defaulting to `0`. -/
def countOf (env : Env) (f : String) : Nat :=
  ((process_epub env f).2.2).getD 0

/-- The CSV row the loop writes for a classified file `f`. -/
def recordOf (env : Env) (f : String) : ClassificationRecord :=
  ⟨titleOf env f, countOf env f, f⟩

/-- `f` passes the `if title and token_count:` truthiness gate: both parts
of the `process_epub` result are present, the title is nonempty and the
count nonzero.  This is the program's notion of a successfully
extracted-and-counted file. -/
def classified (env : Env) (f : String) : Bool :=
  match (process_epub env f).2 with
  | (some t, some c) => decide (t ≠ "" ∧ c ≠ 0)
  | _ => false

/-- `f` is classified and its count is strictly below the threshold, so the
loop attempts to relocate it. -/
def qualifies (env : Env) (max_tokens : Int) (f : String) : Bool :=
  classified env f && decide ((countOf env f : Int) < max_tokens)

/-- Destination path of a relocation:
`os.path.join(dest_folder, os.path.basename(file_path))`. -/
def destPathOf (dest_folder f : String) : String :=
  dest_folder ++ "/" ++ pathBasename f

/-- Rows the loop writes for a fresh (not yet processed) file list. -/
def specRows (env : Env) : List String → List ClassificationRecord
  | [] => []
  | f :: fs => (if classified env f then [recordOf env f] else []) ++ specRows env fs

/-- Successful moves the loop performs for a fresh file list. -/
def specMoved (env : Env) (dest_folder : String) (max_tokens : Int) :
    List String → List (String × String)
  | [] => []
  | f :: fs =>
      (if qualifies env max_tokens f && env.moveOk f then [(f, destPathOf dest_folder f)] else [])
        ++ specMoved env dest_folder max_tokens fs

/-- Events one fresh file contributes, in program order: the archive open
(if reached), then the row write (if classified), then the move attempt
(if the count is below the threshold). -/
def eventsOf (env : Env) (dest_folder : String) (max_tokens : Int) (f : String) :
    List Event :=
  (process_epub env f).1 ++
    (if classified env f then
      Event.rowWritten (recordOf env f) ::
        (if (countOf env f : Int) < max_tokens then
          (if env.moveOk f then [Event.moveSucceeded f (destPathOf dest_folder f)]
           else [Event.moveFailed f])
         else [])
     else [])

/-- Event trace of the loop on a fresh file list. -/
def specEvents (env : Env) (dest_folder : String) (max_tokens : Int) :
    List String → List Event
  | [] => []
  | f :: fs => eventsOf env dest_folder max_tokens f
      ++ specEvents env dest_folder max_tokens fs

/-! ## Concrete environments used as witnesses -/

/-- A two-byte archive whose single XHTML item decodes to `"hi"`. -/
def bookA : EpubBook :=
  ⟨["Title A"], [⟨"application/xhtml+xml", [104, 105]⟩]⟩

/-- A concrete world: directory `src` containing `a.epub` (which parses to
`bookA`), a decoder reading bytes as characters, and a tokenizer yielding
one token per character, so `a.epub` counts 2 tokens. -/
def envB : Env :=
  { pathExists := fun p => p = "src" || p = "dst" || p = "src/a.epub",
    getsize := fun _ => 10,
    scandir := fun p => if p = "src" then some [⟨"a.epub", true⟩] else none,
    read_epub := fun p => if p = "src/a.epub" then some bookA else none,
    decodeUtf8Ignore := fun bs => String.mk (bs.map Char.ofNat),
    encodeOk := fun _ => true,
    encode := fun s => s.toList.map Char.toNat,
    moveOk := fun _ => true,
    openOk := true,
    timestamp := "20260101_000000" }

/-- Like `envB`, but every `shutil.move` fails. -/
def envC : Env := { envB with moveOk := fun _ => false }

/-- Like `envB`, but `a.epub` is 200 MiB, exceeding the size limit. -/
def envD : Env := { envB with getsize := fun _ => 200 * 1024 * 1024 }

/-- An archive whose only item is `text/html`, so no text is extracted. -/
def bookE : EpubBook := ⟨["Title E"], [⟨"text/html", [104, 105]⟩]⟩

/-- Like `envB`, but `a.epub` parses to `bookE`. -/
def envE : Env :=
  { envB with read_epub := fun p => if p = "src/a.epub" then some bookE else none }

/-- Like `envB`, but the source directory scans as empty. -/
def envF : Env := { envB with scandir := fun _ => some [] }

/-- A mixed directory: two EPUB files (one upper-case), a text file, a
subdirectory, and a directory named like an EPUB. -/
def entriesG : List DirEntry :=
  [⟨"a.epub", true⟩, ⟨"B.EPUB", true⟩, ⟨"c.txt", true⟩, ⟨"sub", false⟩,
   ⟨"d.epub", false⟩]

/-- Like `envB`, but scanning `src` yields `entriesG`. -/
def envG : Env := { envB with scandir := fun p => if p = "src" then some entriesG else none }

/-- An archive mixing `text/html` and `application/xhtml+xml` items. -/
def bookF : EpubBook :=
  ⟨[], [⟨"text/html", [65]⟩, ⟨"application/xhtml+xml", [66]⟩,
        ⟨"application/xhtml+xml", [67]⟩]⟩

/-- Claim-shaped form of the extracted text, used to characterize
`extract_full_text`: the fragments of the `application/xhtml+xml` items,
each decoded independently, concatenated in container iteration order;
every other media type contributes nothing. -/
def joinFragments (env : Env) : List EpubItem → String
  | [] => ""
  | it :: rest =>
      (if it.media_type = "application/xhtml+xml" then env.decodeUtf8Ignore it.content
       else "") ++ joinFragments env rest

example : get_epub_files envB "src" = ["src/a.epub"] := by decide
example : countOf envB "src/a.epub" = 2 := by decide
example : classified envB "src/a.epub" = true := by decide
example : (start_processing envB "src" "dst" "3" []).moved = [("src/a.epub", "dst/a.epub")] := by decide
example : (start_processing envB "src" "dst" "2" []).moved = [] := by decide
example : (start_processing envB "src" "dst" "2" []).reportRows = [⟨"Title A", 2, "src/a.epub"⟩] := by decide
example : (start_processing envB "src" "dst" "2" ["src/a.epub"]).processed_count = 0 := by decide
example : pythonInt (stripCommas "1,000") = some 1000 := by decide
example : pythonInt (stripCommas " -42 ") = some (-42) := by decide
example : pythonInt (stripCommas "12.5") = none := by decide

/-! ## Structure of one loop iteration -/

/-- A file already in `self.processed_files` is skipped: the iteration is a
no-op (lines 238-239). -/
theorem processFile_mem (env : Env) (dest_folder : String) (max_tokens : Int)
    (st : LoopState) (f : String) (hf : f ∈ st.processed_files) :
    processFile env dest_folder max_tokens st f = st := by
  simp [processFile, hf]

/-- Closed form of one iteration on a not-yet-processed file. -/
theorem processFile_not_mem (env : Env) (dest_folder : String) (max_tokens : Int)
    (st : LoopState) (f : String) (hf : f ∉ st.processed_files) :
    processFile env dest_folder max_tokens st f =
      { rows := st.rows ++ (if classified env f then [recordOf env f] else []),
        moved := st.moved ++
          (if qualifies env max_tokens f && env.moveOk f
           then [(f, destPathOf dest_folder f)] else []),
        events := st.events ++ eventsOf env dest_folder max_tokens f,
        processed_files := st.processed_files ++ [f],
        processed_count := st.processed_count + 1 } := by
  rcases hpe : process_epub env f with ⟨trace, title, count⟩
  cases title with
  | none =>
      simp [processFile, hf, hpe, classified, eventsOf, qualifies]
  | some t =>
      cases count with
      | none =>
          simp [processFile, hf, hpe, classified, eventsOf, qualifies]
      | some c =>
          by_cases h1 : t ≠ "" ∧ c ≠ 0
          · by_cases h2 : (c : Int) < max_tokens
            · by_cases h3 : env.moveOk f
              · simp [processFile, hf, hpe, classified, eventsOf, qualifies,
                  recordOf, titleOf, countOf, destPathOf, h1, h1.1, h1.2, h2, h3,
                  List.append_assoc]
              · simp [processFile, hf, hpe, classified, eventsOf, qualifies,
                  recordOf, titleOf, countOf, destPathOf, h1, h1.1, h1.2, h2, h3,
                  List.append_assoc]
            · simp [processFile, hf, hpe, classified, eventsOf, qualifies,
                recordOf, titleOf, countOf, h1, h1.1, h1.2, h2, List.append_assoc]
          · simp [processFile, hf, hpe, classified, eventsOf, qualifies, h1]

/-- Closed form of the whole loop on a duplicate-free candidate list that is
disjoint from the carried-over processed set. -/
theorem foldl_closed (env : Env) (dest_folder : String) (max_tokens : Int)
    (fs : List String) (st : LoopState) (hnd : fs.Nodup)
    (hdisj : ∀ f ∈ fs, f ∉ st.processed_files) :
    fs.foldl (processFile env dest_folder max_tokens) st =
      { rows := st.rows ++ specRows env fs,
        moved := st.moved ++ specMoved env dest_folder max_tokens fs,
        events := st.events ++ specEvents env dest_folder max_tokens fs,
        processed_files := st.processed_files ++ fs,
        processed_count := st.processed_count + fs.length } := by
  induction fs generalizing st with
  | nil => simp [specRows, specMoved, specEvents]
  | cons f fs ih =>
      have hnd' := List.nodup_cons.mp hnd
      have hf : f ∉ st.processed_files := hdisj f (List.mem_cons_self f fs)
      rw [List.foldl_cons, processFile_not_mem env dest_folder max_tokens st f hf]
      refine (ih _ hnd'.2 ?_).trans ?_
      · intro g hg
        simp only [List.mem_append, List.mem_singleton, not_or]
        exact ⟨hdisj g (List.mem_cons_of_mem f hg), fun h => hnd'.1 (h ▸ hg)⟩
      · refine LoopState.ext ?_ ?_ ?_ ?_ ?_ <;>
          simp [specRows, specMoved, specEvents, List.append_assoc]
        omega

/-- Closed form of a valid run: validation passes, the report file opens,
and the candidate list is nonempty, duplicate-free and disjoint from the
carried-over processed set. -/
theorem start_processing_valid (env : Env) (ft dt tt : String) (p0 : List String)
    (hv : (validate_inputs env tt ft dt).1 = true)
    (hopen : env.openOk = true)
    (hne : get_epub_files env ft ≠ [])
    (hnd : (get_epub_files env ft).Nodup)
    (hdisj : ∀ f ∈ get_epub_files env ft, f ∉ p0) :
    start_processing env ft dt tt p0 =
      { outcome := Outcome.done (get_epub_files env ft).length
          (dt ++ "/" ++ "epub_token_counts_" ++ env.timestamp ++ ".csv"),
        artifact := some ⟨headerRow, specRows env (get_epub_files env ft)⟩,
        moved := specMoved env dt (thresholdOf tt) (get_epub_files env ft),
        events := specEvents env dt (thresholdOf tt) (get_epub_files env ft),
        processed_files := p0 ++ get_epub_files env ft,
        processed_count := (get_epub_files env ft).length } := by
  have hfold := foldl_closed env dt (thresholdOf tt) (get_epub_files env ft)
    (initState p0) hnd (by intro f hf; simpa [initState] using hdisj f hf)
  have hne' : (get_epub_files env ft).isEmpty = false := by
    simpa [List.isEmpty_iff] using hne
  simp only [initState, List.nil_append, Nat.zero_add] at hfold
  simp [start_processing, hv, hopen, hne', initState, hfold]

/-! ## Membership characterizations of the run artifacts -/

/-- A pair is in the move list of a fresh run exactly when its source is a
candidate that qualifies, the move succeeds, and the target is the
destination directory plus the base name. -/
theorem mem_specMoved (env : Env) (dest_folder : String) (max_tokens : Int)
    (fs : List String) (f d : String) :
    (f, d) ∈ specMoved env dest_folder max_tokens fs ↔
      f ∈ fs ∧ qualifies env max_tokens f = true ∧ env.moveOk f = true ∧
        d = destPathOf dest_folder f := by
  induction fs with
  | nil => simp [specMoved]
  | cons g fs ih =>
      simp only [specMoved, List.mem_append, ih, List.mem_cons]
      by_cases hq : (qualifies env max_tokens g && env.moveOk g) = true
      · have hq' : qualifies env max_tokens g = true ∧ env.moveOk g = true := by
          simpa [Bool.and_eq_true] using hq
        rw [if_pos hq]
        simp only [List.mem_singleton, Prod.mk.injEq]
        constructor
        · rintro (⟨rfl, rfl⟩ | ⟨hm, h1, h2, h3⟩)
          · exact ⟨Or.inl rfl, hq'.1, hq'.2, rfl⟩
          · exact ⟨Or.inr hm, h1, h2, h3⟩
        · rintro ⟨(rfl | hm), h1, h2, h3⟩
          · exact Or.inl ⟨rfl, h3⟩
          · exact Or.inr ⟨hm, h1, h2, h3⟩
      · rw [if_neg hq]
        simp only [List.not_mem_nil, false_or]
        constructor
        · rintro ⟨hm, h1, h2, h3⟩
          exact ⟨Or.inr hm, h1, h2, h3⟩
        · rintro ⟨(rfl | hm), h1, h2, h3⟩
          · exact absurd (by rw [Bool.and_eq_true]; exact ⟨h1, h2⟩) hq
          · exact ⟨hm, h1, h2, h3⟩

/-- A record is a row of a fresh run exactly when it is the record of some
classified candidate. -/
theorem mem_specRows (env : Env) (fs : List String) (r : ClassificationRecord) :
    r ∈ specRows env fs ↔ ∃ f ∈ fs, classified env f = true ∧ r = recordOf env f := by
  induction fs with
  | nil => simp [specRows]
  | cons g fs ih =>
      simp only [specRows, List.mem_append, ih, List.mem_cons]
      by_cases hg : classified env g = true
      · rw [if_pos hg]
        simp only [List.mem_singleton]
        constructor
        · rintro (rfl | ⟨f, hm, h1, h2⟩)
          · exact ⟨g, Or.inl rfl, hg, rfl⟩
          · exact ⟨f, Or.inr hm, h1, h2⟩
        · rintro ⟨f, (rfl | hm), h1, h2⟩
          · exact Or.inl h2
          · exact Or.inr ⟨f, hm, h1, h2⟩
      · rw [if_neg hg]
        simp only [List.not_mem_nil, false_or]
        constructor
        · rintro ⟨f, hm, h1, h2⟩
          exact ⟨f, Or.inr hm, h1, h2⟩
        · rintro ⟨f, (rfl | hm), h1, h2⟩
          · exact absurd h1 hg
          · exact ⟨f, hm, h1, h2⟩

/-- The fresh-run rows are exactly the classified candidates, mapped to
their records, in catalog order. -/
theorem specRows_eq (env : Env) (fs : List String) :
    specRows env fs = (fs.filter (fun f => classified env f)).map (recordOf env) := by
  induction fs with
  | nil => simp [specRows]
  | cons g fs ih =>
      by_cases hg : classified env g = true
      · simp [specRows, List.filter_cons, hg, ih]
      · simp [specRows, List.filter_cons, hg, ih]

/-- The record of a file carries that file as its path. -/
theorem recordOf_file_path (env : Env) (f : String) :
    (recordOf env f).file_path = f := rfl

/-- Records of distinct files are distinct. -/
theorem recordOf_inj (env : Env) : Function.Injective (recordOf env) := by
  intro a b h
  simpa [recordOf] using congrArg ClassificationRecord.file_path h

/-- The fresh-run trace splits along a split of the candidate list. -/
theorem specEvents_append (env : Env) (dest_folder : String) (max_tokens : Int)
    (l1 l2 : List String) :
    specEvents env dest_folder max_tokens (l1 ++ l2) =
      specEvents env dest_folder max_tokens l1 ++ specEvents env dest_folder max_tokens l2 := by
  induction l1 with
  | nil => simp [specEvents]
  | cons g l1 ih => simp [specEvents, ih]

/-- `process_epub` opens the archive at most once. -/
theorem process_epub_trace (env : Env) (f : String) :
    (process_epub env f).1 = [] ∨ (process_epub env f).1 = [Event.archiveOpened f] := by
  unfold process_epub
  by_cases h1 : env.pathExists f
  · by_cases h2 : env.getsize f > MAX_FILE_SIZE
    · simp [h1, h2]
    · rcases henv : env.read_epub f with _ | book <;> simp [h1, h2, henv]
  · simp [h1]

/-- A file whose archive is never opened contributes no open event to any
iteration. -/
theorem archiveOpened_not_mem_eventsOf (env : Env) (dest_folder : String)
    (max_tokens : Int) (f g : String) (h : (process_epub env f).1 = []) :
    Event.archiveOpened f ∉ eventsOf env dest_folder max_tokens g := by
  simp only [eventsOf, List.mem_append, not_or]
  refine ⟨?_, ?_⟩
  · intro hmem
    rcases process_epub_trace env g with hg | hg
    · rw [hg] at hmem
      exact absurd hmem (List.not_mem_nil _)
    · rw [hg] at hmem
      have hfg : f = g := by simpa using hmem
      subst hfg
      rw [h] at hg
      exact absurd hg (by simp)
  · by_cases hc : classified env g = true
    · rw [if_pos hc]
      intro hmem
      rcases List.mem_cons.mp hmem with h1 | h1
      · exact absurd h1 (by simp)
      · split_ifs at h1 <;> simp_all
    · rw [if_neg hc]
      exact List.not_mem_nil _

/-- No open event anywhere in a fresh run for a file whose archive is never
opened. -/
theorem archiveOpened_not_mem_specEvents (env : Env) (dest_folder : String)
    (max_tokens : Int) (fs : List String) (f : String)
    (h : (process_epub env f).1 = []) :
    Event.archiveOpened f ∉ specEvents env dest_folder max_tokens fs := by
  induction fs with
  | nil => simp [specEvents]
  | cons g fs ih =>
      simp only [specEvents, List.mem_append, not_or]
      exact ⟨archiveOpened_not_mem_eventsOf env dest_folder max_tokens f g h, ih⟩

/-! ## Catalog, validation, and processed-set invariants -/

/-- Unrolling the collecting loop of `get_epub_files`. -/
theorem get_epub_files_aux (folder : String) (entries : List DirEntry)
    (acc : List String) :
    entries.foldl
      (fun acc e =>
        if e.is_file && lowerEndsWith e.name ".epub" then
          acc ++ [folder ++ "/" ++ e.name]
        else acc) acc
      = acc ++ (entries.filter
          (fun e => e.is_file && lowerEndsWith e.name ".epub")).map
            (fun e => folder ++ "/" ++ e.name) := by
  induction entries generalizing acc with
  | nil => simp
  | cons e entries ih =>
      rw [List.foldl_cons]
      by_cases he : (e.is_file && lowerEndsWith e.name ".epub") = true
      · rw [if_pos he, ih, List.filter_cons]
        simp [he, List.append_assoc]
      · rw [if_neg he, ih, List.filter_cons]
        simp [he]

/-- `get_epub_files` on a successful scan: the regular entries whose
lowered name ends in `.epub`, in enumeration order, as full paths. -/
theorem get_epub_files_eq (env : Env) (folder : String) (entries : List DirEntry)
    (h : env.scandir folder = some entries) :
    get_epub_files env folder =
      (entries.filter (fun e => e.is_file && lowerEndsWith e.name ".epub")).map
        (fun e => folder ++ "/" ++ e.name) := by
  simp only [get_epub_files, h]
  simpa using get_epub_files_aux folder entries []

/-- `validate_inputs` accepts exactly when the comma-stripped threshold
parses to a positive integer and both directories exist. -/
theorem validate_iff (env : Env) (tt ft dt : String) :
    (validate_inputs env tt ft dt).1 = true ↔
      (∃ n : Int, pythonInt (stripCommas tt) = some n ∧ 0 < n) ∧
        env.pathExists ft = true ∧ env.pathExists dt = true := by
  unfold validate_inputs
  cases hp : pythonInt (stripCommas tt) with
  | none => simp [hp]
  | some n =>
      by_cases hn : n ≤ 0
      · simp only [hp, if_pos hn]
        constructor
        · intro h
          exact absurd h (by simp)
        · rintro ⟨⟨m, hm, hm0⟩, -, -⟩
          injection hm with hm
          omega
      · by_cases hft : env.pathExists ft
        · by_cases hdt : env.pathExists dt
          · simp [hp, hn, hft, hdt]
            omega
          · simp [hp, hn, hft, hdt]
        · simp [hp, hn, hft]

/-- One iteration never removes anything from `self.processed_files`. -/
theorem processed_files_mono (env : Env) (dest_folder : String) (max_tokens : Int)
    (st : LoopState) (f : String) :
    st.processed_files ⊆ (processFile env dest_folder max_tokens st f).processed_files := by
  by_cases hf : f ∈ st.processed_files
  · rw [processFile_mem env dest_folder max_tokens st f hf]
    exact List.Subset.refl _
  · rw [processFile_not_mem env dest_folder max_tokens st f hf]
    intro g hg
    exact List.mem_append_left _ hg

/-- The loop never removes anything from `self.processed_files`. -/
theorem foldl_processed_mono (env : Env) (dest_folder : String) (max_tokens : Int)
    (fs : List String) (st : LoopState) :
    st.processed_files ⊆ (fs.foldl (processFile env dest_folder max_tokens) st).processed_files := by
  induction fs generalizing st with
  | nil => exact List.Subset.refl _
  | cons f fs ih =>
      rw [List.foldl_cons]
      exact (processed_files_mono env dest_folder max_tokens st f).trans (ih _)

/-- Any row the loop adds is for a file that was not yet in
`self.processed_files` when the loop started. -/
theorem foldl_rows_inv (env : Env) (dest_folder : String) (max_tokens : Int)
    (fs : List String) (st : LoopState) :
    ∀ r ∈ (fs.foldl (processFile env dest_folder max_tokens) st).rows,
      r ∈ st.rows ∨ r.file_path ∉ st.processed_files := by
  induction fs generalizing st with
  | nil => exact fun r hr => Or.inl hr
  | cons f fs ih =>
      intro r hr
      rw [List.foldl_cons] at hr
      by_cases hf : f ∈ st.processed_files
      · rw [processFile_mem env dest_folder max_tokens st f hf] at hr
        exact ih st r hr
      · rw [processFile_not_mem env dest_folder max_tokens st f hf] at hr
        rcases ih _ r hr with hin | hout
        · rcases List.mem_append.mp hin with h1 | h2
          · exact Or.inl h1
          · right
            by_cases hc : classified env f = true
            · rw [if_pos hc] at h2
              have hr2 : r = recordOf env f := List.mem_singleton.mp h2
              rw [hr2]
              exact hf
            · rw [if_neg hc] at h2
              exact absurd h2 (List.not_mem_nil r)
        · right
          intro hmem
          exact hout (List.mem_append_left _ hmem)

/-! ## The claims -/

/-- C1: In a valid run (threshold accepted by validation, report file opens,
candidate list duplicate-free and disjoint from the carried-over processed
set), a candidate whose extraction and counting pass the program's success
gate (`classified`) and whose move operation would succeed is relocated to
the destination directory if and only if its token count `c` is strictly
below the threshold; in particular, a file whose count equals the threshold
is never relocated. -/
theorem relocated_iff_count_lt_threshold
    (env : Env) (ft dt tt : String) (p0 : List String) (f : String) (c : Nat)
    (hv : (validate_inputs env tt ft dt).1 = true)
    (hopen : env.openOk = true)
    (hnd : (get_epub_files env ft).Nodup)
    (hdisj : ∀ g ∈ get_epub_files env ft, g ∉ p0)
    (hf : f ∈ get_epub_files env ft)
    (hcls : classified env f = true)
    (hc : countOf env f = c)
    (hmv : env.moveOk f = true) :
    ((∃ d, (f, d) ∈ (start_processing env ft dt tt p0).moved) ↔ (c : Int) < thresholdOf tt)
    ∧ ((c : Int) = thresholdOf tt →
        ∀ d, (f, d) ∉ (start_processing env ft dt tt p0).moved) := by
  have hne : get_epub_files env ft ≠ [] := List.ne_nil_of_mem hf
  rw [start_processing_valid env ft dt tt p0 hv hopen hne hnd hdisj]
  constructor
  · constructor
    · rintro ⟨d, hd⟩
      have hq := ((mem_specMoved env dt (thresholdOf tt) _ f d).mp hd).2.1
      simp only [qualifies, hcls, Bool.true_and, decide_eq_true_eq, hc] at hq
      exact hq
    · intro hlt
      refine ⟨destPathOf dt f, (mem_specMoved env dt (thresholdOf tt) _ f _).mpr
        ⟨hf, ?_, hmv, rfl⟩⟩
      simp only [qualifies, hcls, Bool.true_and, decide_eq_true_eq, hc]
      exact hlt
  · intro heq d hd
    have hq := ((mem_specMoved env dt (thresholdOf tt) _ f d).mp hd).2.1
    simp only [qualifies, hcls, Bool.true_and, decide_eq_true_eq, hc] at hq
    omega

/-- Witness for C1: in the concrete world `envB` with threshold `"3"`, the
2-token candidate is relocated, and the relocation test is exactly
`2 < 3`. -/
theorem relocated_iff_count_lt_threshold_w :
    classified envB "src/a.epub" = true ∧
      ((∃ d, ("src/a.epub", d) ∈ (start_processing envB "src" "dst" "3" []).moved) ↔
        ((2 : Nat) : Int) < thresholdOf "3") :=
  ⟨by decide,
   (relocated_iff_count_lt_threshold envB "src" "dst" "3" [] "src/a.epub" 2
      (by decide) (by decide) (by decide) (by decide) (by decide) (by decide)
      (by decide) (by decide)).1⟩

/-- C2: In a valid run the report artifact exists and its data rows are
exactly one record, in catalog order, for each candidate that passes the
success gate — independent of whether it also qualified for relocation —
so there are at most as many rows as candidates; every row carries the
title, the token count and the original path of its file, and each
classified candidate has exactly one row. -/
theorem report_rows_exactly_classified
    (env : Env) (ft dt tt : String) (p0 : List String)
    (hv : (validate_inputs env tt ft dt).1 = true)
    (hopen : env.openOk = true)
    (hne : get_epub_files env ft ≠ [])
    (hnd : (get_epub_files env ft).Nodup)
    (hdisj : ∀ g ∈ get_epub_files env ft, g ∉ p0) :
    (start_processing env ft dt tt p0).artifact =
        some ⟨headerRow,
          ((get_epub_files env ft).filter (fun f => classified env f)).map (recordOf env)⟩
    ∧ (start_processing env ft dt tt p0).reportRows.length ≤ (get_epub_files env ft).length
    ∧ (∀ r ∈ (start_processing env ft dt tt p0).reportRows,
        r.file_path ∈ get_epub_files env ft ∧ classified env r.file_path = true ∧
          r = recordOf env r.file_path)
    ∧ (∀ f ∈ get_epub_files env ft, classified env f = true →
        (start_processing env ft dt tt p0).reportRows.count (recordOf env f) = 1) := by
  rw [start_processing_valid env ft dt tt p0 hv hopen hne hnd hdisj]
  refine ⟨by rw [specRows_eq], ?_, ?_, ?_⟩
  · show (specRows env (get_epub_files env ft)).length ≤ _
    rw [specRows_eq, List.length_map]
    exact List.length_filter_le _ _
  · intro r hr
    obtain ⟨g, hg, hcg, rfl⟩ := (mem_specRows env _ r).mp hr
    exact ⟨hg, hcg, rfl⟩
  · intro f hf hcf
    show (specRows env (get_epub_files env ft)).count (recordOf env f) = 1
    rw [specRows_eq]
    refine List.count_eq_one_of_mem ((hnd.filter _).map (recordOf_inj env)) ?_
    exact List.mem_map_of_mem _ (List.mem_filter.mpr ⟨hf, hcf⟩)

/-- Witness for C2: concrete run in `envB` with threshold `"2"`; the one
candidate is classified, so the artifact has exactly its row. -/
theorem report_rows_exactly_classified_w :
    (validate_inputs envB "2" "src" "dst").1 = true ∧
      (start_processing envB "src" "dst" "2" []).artifact =
        some ⟨headerRow,
          ((get_epub_files envB "src").filter (fun f => classified envB f)).map
            (recordOf envB)⟩ :=
  ⟨by decide,
   (report_rows_exactly_classified envB "src" "dst" "2" []
      (by decide) (by decide) (by decide) (by decide) (by decide)).1⟩

/-- C3: In a valid run, a candidate that qualifies for relocation but whose
move fails still has its row in the report — written before the failed move
attempt in the event trace — is not rolled back, stays at its original path
(no move recorded for it), is marked processed, and the run still processes
every candidate. -/
theorem relocation_failure_row_persists
    (env : Env) (ft dt tt : String) (p0 : List String) (f : String)
    (hv : (validate_inputs env tt ft dt).1 = true)
    (hopen : env.openOk = true)
    (hnd : (get_epub_files env ft).Nodup)
    (hdisj : ∀ g ∈ get_epub_files env ft, g ∉ p0)
    (hf : f ∈ get_epub_files env ft)
    (hcls : classified env f = true)
    (hlt : (countOf env f : Int) < thresholdOf tt)
    (hmv : env.moveOk f = false) :
    recordOf env f ∈ (start_processing env ft dt tt p0).reportRows
    ∧ (∃ pre post, (start_processing env ft dt tt p0).events =
        pre ++ Event.rowWritten (recordOf env f) :: Event.moveFailed f :: post)
    ∧ (∀ d, (f, d) ∉ (start_processing env ft dt tt p0).moved)
    ∧ f ∈ (start_processing env ft dt tt p0).processed_files
    ∧ (start_processing env ft dt tt p0).processed_count =
        (get_epub_files env ft).length := by
  have hne : get_epub_files env ft ≠ [] := List.ne_nil_of_mem hf
  rw [start_processing_valid env ft dt tt p0 hv hopen hne hnd hdisj]
  refine ⟨?_, ?_, ?_, ?_, rfl⟩
  · exact (mem_specRows env _ _).mpr ⟨f, hf, hcls, rfl⟩
  · obtain ⟨l1, l2, hsplit⟩ := List.append_of_mem hf
    refine ⟨specEvents env dt (thresholdOf tt) l1 ++ (process_epub env f).1,
      specEvents env dt (thresholdOf tt) l2, ?_⟩
    show specEvents env dt (thresholdOf tt) (get_epub_files env ft) = _
    rw [hsplit, specEvents_append]
    simp only [specEvents, eventsOf, if_pos hcls, if_pos hlt,
      if_neg (by simp [hmv] : ¬ env.moveOk f = true)]
    simp [List.append_assoc]
  · intro d hd
    have hq := ((mem_specMoved env dt (thresholdOf tt) _ f d).mp hd).2.2.1
    rw [hmv] at hq
    exact Bool.false_ne_true hq
  · exact List.mem_append_right _ hf

/-- Witness for C3: `envC` is `envB` with every move failing; with threshold
`"3"` the 2-token candidate qualifies, its row stands, and no move is
recorded. -/
theorem relocation_failure_row_persists_w :
    envC.moveOk "src/a.epub" = false ∧
      recordOf envC "src/a.epub" ∈ (start_processing envC "src" "dst" "3" []).reportRows :=
  ⟨by decide,
   (relocation_failure_row_persists envC "src" "dst" "3" [] "src/a.epub"
      (by decide) (by decide) (by decide) (by decide) (by decide) (by decide)
      (by decide) (by decide)).1⟩

/-- C4: In a valid run, a candidate larger than `MAX_FILE_SIZE` is never
opened (no open event for it anywhere in the trace), produces no report
row, is never moved, still advances the progress counter (the run counts
all candidates), and is added to the processed set, so a retry within the
run would be a no-op. -/
theorem oversized_rejected
    (env : Env) (ft dt tt : String) (p0 : List String) (f : String)
    (hv : (validate_inputs env tt ft dt).1 = true)
    (hopen : env.openOk = true)
    (hnd : (get_epub_files env ft).Nodup)
    (hdisj : ∀ g ∈ get_epub_files env ft, g ∉ p0)
    (hf : f ∈ get_epub_files env ft)
    (hex : env.pathExists f = true)
    (hsz : env.getsize f > MAX_FILE_SIZE) :
    Event.archiveOpened f ∉ (start_processing env ft dt tt p0).events
    ∧ (∀ r ∈ (start_processing env ft dt tt p0).reportRows, r.file_path ≠ f)
    ∧ (∀ d, (f, d) ∉ (start_processing env ft dt tt p0).moved)
    ∧ f ∈ (start_processing env ft dt tt p0).processed_files
    ∧ (start_processing env ft dt tt p0).processed_count =
        (get_epub_files env ft).length
    ∧ (∀ st : LoopState, f ∈ st.processed_files →
        processFile env dt (thresholdOf tt) st f = st) := by
  have hne : get_epub_files env ft ≠ [] := List.ne_nil_of_mem hf
  have hpe : process_epub env f = ([], none, none) := by
    simp [process_epub, hex, hsz]
  have hcls : classified env f = false := by simp [classified, hpe]
  rw [start_processing_valid env ft dt tt p0 hv hopen hne hnd hdisj]
  refine ⟨?_, ?_, ?_, List.mem_append_right _ hf, rfl, ?_⟩
  · exact archiveOpened_not_mem_specEvents env dt (thresholdOf tt) _ f (by rw [hpe])
  · intro r hr hrf
    obtain ⟨g, hg, hcg, rfl⟩ := (mem_specRows env _ r).mp hr
    rw [recordOf_file_path] at hrf
    rw [hrf, hcls] at hcg
    exact Bool.false_ne_true hcg
  · intro d hd
    have hq := ((mem_specMoved env dt (thresholdOf tt) _ f d).mp hd).2.1
    simp only [qualifies, hcls, Bool.false_and] at hq
    exact Bool.false_ne_true hq
  · intro st hst
    exact processFile_mem env dt (thresholdOf tt) st f hst

/-- Witness for C4: `envD` is `envB` with a 200 MiB `a.epub`; validation
passes, and the oversized candidate is never opened, appears in no row, is
not moved, yet is counted. -/
theorem oversized_rejected_w :
    envD.getsize "src/a.epub" > MAX_FILE_SIZE ∧
      Event.archiveOpened "src/a.epub" ∉ (start_processing envD "src" "dst" "3" []).events :=
  ⟨by decide,
   (oversized_rejected envD "src" "dst" "3" [] "src/a.epub"
      (by decide) (by decide) (by decide) (by decide) (by decide) (by decide)
      (by decide)).1⟩

/-- C5: In a valid run, a candidate whose archive parses but yields no
extracted markup text (the accumulated `full_text` is empty) produces no
report row and is never relocated. -/
theorem no_text_no_row_no_move
    (env : Env) (ft dt tt : String) (p0 : List String) (f : String) (book : EpubBook)
    (hv : (validate_inputs env tt ft dt).1 = true)
    (hopen : env.openOk = true)
    (hnd : (get_epub_files env ft).Nodup)
    (hdisj : ∀ g ∈ get_epub_files env ft, g ∉ p0)
    (hf : f ∈ get_epub_files env ft)
    (hex : env.pathExists f = true)
    (hsz : ¬ env.getsize f > MAX_FILE_SIZE)
    (hbook : env.read_epub f = some book)
    (htext : extract_full_text env book = "") :
    (∀ r ∈ (start_processing env ft dt tt p0).reportRows, r.file_path ≠ f)
    ∧ (∀ d, (f, d) ∉ (start_processing env ft dt tt p0).moved) := by
  have hne : get_epub_files env ft ≠ [] := List.ne_nil_of_mem hf
  have hpe : process_epub env f =
      ([Event.archiveOpened f], some (get_epub_title book f), none) := by
    simp [process_epub, hex, hsz, hbook, process_epub_content, htext]
  have hcls : classified env f = false := by simp [classified, hpe]
  rw [start_processing_valid env ft dt tt p0 hv hopen hne hnd hdisj]
  constructor
  · intro r hr hrf
    obtain ⟨g, hg, hcg, rfl⟩ := (mem_specRows env _ r).mp hr
    rw [recordOf_file_path] at hrf
    rw [hrf, hcls] at hcg
    exact Bool.false_ne_true hcg
  · intro d hd
    have hq := ((mem_specMoved env dt (thresholdOf tt) _ f d).mp hd).2.1
    simp only [qualifies, hcls, Bool.false_and] at hq
    exact Bool.false_ne_true hq

/-- Witness for C5: `envE` is `envB` where the archive's only item is
`text/html`, so no text is extracted; the run writes no row for it and
moves nothing. -/
theorem no_text_no_row_no_move_w :
    extract_full_text envE bookE = "" ∧
      ∀ d, ("src/a.epub", d) ∉ (start_processing envE "src" "dst" "3" []).moved :=
  ⟨by decide,
   (no_text_no_row_no_move envE "src" "dst" "3" [] "src/a.epub" bookE
      (by decide) (by decide) (by decide) (by decide) (by decide) (by decide)
      (by decide) (by decide) (by decide)).2⟩

/-- C6: Validation accepts exactly when the comma-stripped threshold text
parses to a positive integer and both directories exist; when it rejects,
the run ends with the single validation error message and performs no side
effect at all: no artifact, no move, no event, nothing counted. -/
theorem validation_gate (env : Env) (ft dt tt : String) (p0 : List String) :
    ((validate_inputs env tt ft dt).1 = true ↔
      (∃ n : Int, pythonInt (stripCommas tt) = some n ∧ 0 < n) ∧
        env.pathExists ft = true ∧ env.pathExists dt = true)
    ∧ ((validate_inputs env tt ft dt).1 = false →
        (start_processing env ft dt tt p0).outcome =
            Outcome.error (validate_inputs env tt ft dt).2
        ∧ (start_processing env ft dt tt p0).artifact = none
        ∧ (start_processing env ft dt tt p0).moved = []
        ∧ (start_processing env ft dt tt p0).events = []
        ∧ (start_processing env ft dt tt p0).processed_count = 0) := by
  refine ⟨validate_iff env tt ft dt, fun h => ?_⟩
  simp [start_processing, h]

/-- Witness for C6: the unparseable threshold `"abc"` is rejected and the
run creates no artifact and moves nothing. -/
theorem validation_gate_w :
    (validate_inputs envB "abc" "src" "dst").1 = false ∧
      (start_processing envB "src" "dst" "abc" []).artifact = none ∧
      (start_processing envB "src" "dst" "abc" []).moved = [] :=
  ⟨by decide,
   ((validation_gate envB "src" "dst" "abc" []).2 (by decide)).2.1,
   ((validation_gate envB "src" "dst" "abc" []).2 (by decide)).2.2.1⟩

/-- C7: When validation passes but the candidate catalog is empty, the run
ends immediately with the nothing-to-do warning and creates no report
artifact, moves nothing, and records no event. -/
theorem empty_catalog_no_artifact (env : Env) (ft dt tt : String) (p0 : List String)
    (hv : (validate_inputs env tt ft dt).1 = true)
    (hempty : get_epub_files env ft = []) :
    (start_processing env ft dt tt p0).outcome = Outcome.warning "No EPUB files found!"
    ∧ (start_processing env ft dt tt p0).artifact = none
    ∧ (start_processing env ft dt tt p0).moved = []
    ∧ (start_processing env ft dt tt p0).events = []
    ∧ (start_processing env ft dt tt p0).processed_count = 0 := by
  simp [start_processing, hv, hempty]

/-- Witness for C7: `envF` scans `src` as empty; the run creates no
artifact. -/
theorem empty_catalog_no_artifact_w :
    get_epub_files envF "src" = [] ∧
      (start_processing envF "src" "dst" "3" []).artifact = none :=
  ⟨by decide,
   (empty_catalog_no_artifact envF "src" "dst" "3" [] (by decide) (by decide)).2.1⟩

/-- C8: The catalog lists exactly the regular entries of the scanned
directory whose name, lowered, ends in `.epub`, each as the directory path
plus the entry name (so only entries directly inside the directory); a
directory-scan failure yields the empty catalog instead of a run
failure. -/
theorem catalog_spec (env : Env) (folder : String) :
    (env.scandir folder = none → get_epub_files env folder = [])
    ∧ (∀ entries, env.scandir folder = some entries →
        ∀ p, p ∈ get_epub_files env folder ↔
          ∃ e ∈ entries, e.is_file = true ∧ lowerEndsWith e.name ".epub" = true ∧
            p = folder ++ "/" ++ e.name) := by
  constructor
  · intro h
    simp [get_epub_files, h]
  · intro entries h p
    rw [get_epub_files_eq env folder entries h]
    simp only [List.mem_map, List.mem_filter]
    constructor
    · rintro ⟨e, ⟨he, hcond⟩, rfl⟩
      rw [Bool.and_eq_true] at hcond
      exact ⟨e, he, hcond.1, hcond.2, rfl⟩
    · rintro ⟨e, he, h1, h2, rfl⟩
      exact ⟨e, ⟨he, by rw [Bool.and_eq_true]; exact ⟨h1, h2⟩⟩, rfl⟩

/-- Witness for C8: in the mixed directory `entriesG` the catalog keeps the
two regular `.epub` entries (case-insensitively) and drops the text file,
the subdirectory and the `.epub`-named directory. -/
theorem catalog_spec_w :
    get_epub_files envG "src" = ["src/a.epub", "src/B.EPUB"] ∧
      ("src/B.EPUB" ∈ get_epub_files envG "src" ↔
        ∃ e ∈ entriesG, e.is_file = true ∧ lowerEndsWith e.name ".epub" = true ∧
          "src/B.EPUB" = "src" ++ "/" ++ e.name) :=
  ⟨by decide, (catalog_spec envG "src").2 entriesG (by decide) "src/B.EPUB"⟩

/-- C9 counterexample: using the same app instance, run 1 (threshold 2,
count 2) classifies `src/a.epub`, writes its row, moves nothing, and marks
it processed.  The instance's processed set is therefore nonempty at the
start of run 2 — not empty as claimed — and run 2, although the candidate
is still present in the source, silently skips it: it processes zero files
and writes no row, instead of processing it again. -/
theorem processed_set_counterexample :
    "src/a.epub" ∈ get_epub_files envB "src"
    ∧ (start_processing envB "src" "dst" "2" []).moved = []
    ∧ (start_processing envB "src" "dst" "2" []).processed_files = ["src/a.epub"]
    ∧ (start_processing envB "src" "dst" "2" []).reportRows =
        [⟨"Title A", 2, "src/a.epub"⟩]
    ∧ (start_processing envB "src" "dst" "2" ["src/a.epub"]).processed_count = 0
    ∧ (start_processing envB "src" "dst" "2" ["src/a.epub"]).reportRows = [] := by
  decide

/-- C9 (amended): The processed-file set is owned by the app instance and
is empty only when the instance is constructed; `start_processing` never
clears it.  Every run returns a superset of the carried-over set, and a
candidate already in that set is silently skipped: it can never produce a
report row in a later run of the same instance. -/
theorem processed_set_not_cleared (env : Env) (ft dt tt : String) (p0 : List String) :
    p0 ⊆ (start_processing env ft dt tt p0).processed_files
    ∧ ∀ r ∈ (start_processing env ft dt tt p0).reportRows, r.file_path ∉ p0 := by
  constructor
  · simp only [start_processing]
    split_ifs <;>
      first
        | exact List.Subset.refl _
        | exact foldl_processed_mono env dt (thresholdOf tt) _ (initState p0)
  · simp only [start_processing]
    split_ifs <;>
      first
        | (intro r hr
           have h := foldl_rows_inv env dt (thresholdOf tt) (get_epub_files env ft)
             (initState p0) r hr
           simpa [initState] using h)
        | simp [RunResult.reportRows]

/-- Witness for C9 (amended): the carried-over set survives a concrete
second run. -/
theorem processed_set_not_cleared_w :
    ["src/a.epub"] ⊆
      (start_processing envB "src" "dst" "2" ["src/a.epub"]).processed_files :=
  (processed_set_not_cleared envB "src" "dst" "2" ["src/a.epub"]).1

/-- Unrolling the text-accumulation loop of `_process_epub_content`. -/
theorem extract_foldl (env : Env) (items : List EpubItem) (acc : String) :
    items.foldl (appendItemText env) acc = acc ++ joinFragments env items := by
  induction items generalizing acc with
  | nil => simp [joinFragments, String.append_empty]
  | cons it items ih =>
      rw [List.foldl_cons, ih]
      simp only [appendItemText, joinFragments]
      by_cases hm : it.media_type = "application/xhtml+xml"
      · rw [if_pos hm, if_pos hm]
        by_cases hc : env.decodeUtf8Ignore it.content = ""
        · rw [if_neg (by simp [hc]), hc, String.empty_append]
        · rw [if_pos hc, String.append_assoc]
      · rw [if_neg hm, if_neg hm, String.empty_append]

/-- `extract_full_text` equals the claim-shaped concatenation. -/
theorem extract_eq_joinFragments (env : Env) (book : EpubBook) :
    extract_full_text env book = joinFragments env book.items := by
  rw [extract_full_text, extract_foldl, String.empty_append]

/-- Without any `application/xhtml+xml` item nothing is extracted. -/
theorem joinFragments_no_xhtml (env : Env) (items : List EpubItem)
    (h : ∀ it ∈ items, it.media_type ≠ "application/xhtml+xml") :
    joinFragments env items = "" := by
  induction items with
  | nil => rfl
  | cons it items ih =>
      rw [joinFragments, if_neg (h it (List.mem_cons_self it items)),
        ih (fun x hx => h x (List.mem_cons_of_mem it hx)), String.empty_append]

/-- C10: The extracted text of an archive is exactly the concatenation, in
container iteration order, of the fragments of those items whose declared
media type is literally `application/xhtml+xml`, each fragment decoded
independently by the ignore-errors UTF-8 codec; items of any other media
type — `text/html` included — contribute nothing, and an archive with no
such item yields empty text. -/
theorem xhtml_only_in_order (env : Env) (book : EpubBook) :
    extract_full_text env book = joinFragments env book.items
    ∧ ((∀ it ∈ book.items, it.media_type ≠ "application/xhtml+xml") →
        extract_full_text env book = "") := by
  refine ⟨extract_eq_joinFragments env book, fun h => ?_⟩
  rw [extract_eq_joinFragments, joinFragments_no_xhtml env book.items h]

/-- Witness for C10: in `bookF` the `text/html` fragment `"A"` is dropped
and the two XHTML fragments concatenate in order to `"BC"`. -/
theorem xhtml_only_in_order_w :
    extract_full_text envB bookF = joinFragments envB bookF.items ∧
      extract_full_text envB bookF = "BC" :=
  ⟨(xhtml_only_in_order envB bookF).1, by decide⟩

end EpubTokens
